import Mathlib

/-!
Shallow embedding of `bdlmca_xxxpooledbufferchain.h` (BloombergLP, package
`bdlmca`): the `PooledBufferChain` segmented byte buffer and its factory
`PooledBufferChainFactory`.

Modelling conventions:
* bytes are `Nat`; a block's payload is a `List Nat` of length `bufferSize`;
* the chain's linked block list (`d_first_p`/`d_last_p`) is a `List (List Nat)`
  in traversal order, so `d_numBuffers` is its length;
* the pool (`bdlma::ConcurrentPool`) is represented by its constant
  `blockSize`, the only observable of it this component reads;
* C++ `int` values that the component requires to be non-negative are `Nat`.

Only the header is in the repository sources, so the inline member functions
(`bufferSize`, the constructor, `operator[]`, `length`, `numBuffers`, the
factory's constructor, `allocate` and `bufferSize`) are translated directly
from it; the out-of-line member functions (`setLength`, `append`, `replace`,
`copyOut`, `removeAll`, `buffer`, `loadBuffers`) are modelled from the spec,
as flagged on each definition.
-/

namespace Bdlmca

/-- Size in bytes of the link field embedded at the front of each pooled
block: `sizeof(char *)` on the 64-bit platforms this component targets. -/
def sizeofCharPtr : Nat := 8

/-- Ceiling division, the number of fixed-size blocks needed to hold `n`
bytes of payload when each block holds `b` bytes. -/
def ceilDiv (n b : Nat) : Nat := (n + b - 1) / b

/-- The surface of `bdlma::ConcurrentPool` that this component observes:
a fixed block size, set at construction of the pool. -/
structure ConcurrentPool where
  blockSize : Nat
deriving DecidableEq

/-- State of a `bdlmca::PooledBufferChain`.  `poolBlockSize` stands for
`d_pool_p->blockSize()` (the chain only ever reads the pool's block size);
`blocks` is the linked list of buffers reachable from `d_first_p`, each
entry holding that block's payload bytes (link field hidden), so
`d_numBuffers` is `blocks.length`; `d_length` is the byte length field. -/
structure PooledBufferChain where
  poolBlockSize : Nat
  blocks : List (List Nat)
  d_length : Nat
deriving DecidableEq

/-- `PooledBufferChain::bufferSize` (header, inline): returns
`d_pool_p->blockSize() - sizeof(char *)`. -/
def PooledBufferChain.bufferSize (c : PooledBufferChain) : Nat :=
  c.poolBlockSize - sizeofCharPtr

/-- `PooledBufferChain::length` (header, inline): returns `d_length`. -/
def PooledBufferChain.length (c : PooledBufferChain) : Nat :=
  c.d_length

/-- `PooledBufferChain::numBuffers` (header, inline): returns
`d_numBuffers`, which the model maintains as `blocks.length`. -/
def PooledBufferChain.numBuffers (c : PooledBufferChain) : Nat :=
  c.blocks.length

/-- `PooledBufferChain::PooledBufferChain(pool)` (header, inline): a chain
starts empty — null first/last pointers, zero length, zero buffers. -/
def mkChain (poolBlockSize : Nat) : PooledBufferChain :=
  ⟨poolBlockSize, [], 0⟩

/-- Modelled from the spec: `PooledBufferChain::buffer(index)` has no body
under `src/`; per the spec it returns the payload region (link field
hidden) of the block at position `index`, `bufferSize` bytes. -/
def PooledBufferChain.buffer (c : PooledBufferChain) (index : Nat) : List Nat :=
  (c.blocks[index]?).getD []

/-- `PooledBufferChain::operator[](int)` (mutable form; header, inline):
`bufferIdx = index / bufferSize()`, `offset = index % bufferSize()`,
result is `buffer(bufferIdx)[offset]`. -/
def PooledBufferChain.opIndexMut (c : PooledBufferChain) (index : Nat) : Nat :=
  let bufferIdx := index / c.bufferSize
  let offset := index % c.bufferSize
  ((c.buffer bufferIdx)[offset]?).getD 0

/-- `PooledBufferChain::operator[](int) const` (header, inline): same
block-index/offset arithmetic as the mutable form. -/
def PooledBufferChain.opIndexConst (c : PooledBufferChain) (index : Nat) : Nat :=
  let bufferIdx := index / c.bufferSize
  let offset := index % c.bufferSize
  ((c.buffer bufferIdx)[offset]?).getD 0

/-- Byte of the chain at logical position `p`, read through the
block-walk arithmetic (block `p / bufferSize`, in-block offset
`p % bufferSize`) that every copy loop of the component uses. -/
def PooledBufferChain.getByte (c : PooledBufferChain) (p : Nat) : Nat :=
  ((c.buffer (p / c.bufferSize))[p % c.bufferSize]?).getD 0

/-- Single-byte store at chain position `p`: one step of the block-walk
copy loop the spec describes for `replace`/`append`/`copyOut` (block
`p / bufferSize`, in-block offset `p % bufferSize`). -/
def PooledBufferChain.writeByte (c : PooledBufferChain) (p v : Nat) : PooledBufferChain :=
  let blk := (c.buffer (p / c.bufferSize)).set (p % c.bufferSize) v
  { c with blocks := c.blocks.set (p / c.bufferSize) blk }

/-- Store of a run of bytes starting at chain position `o`: the byte-level
effect of the chunked block-walk copy loop (each chunk copies
`min (bufferSize - inOffset) remaining` bytes and moves to the next block;
byte by byte that is exactly successive `writeByte` stores). -/
def PooledBufferChain.writeBytes : PooledBufferChain → Nat → List Nat → PooledBufferChain
  | c, _, [] => c
  | c, o, v :: rest => (c.writeByte o v).writeBytes (o + 1) rest

/-- Modelled from the spec: `PooledBufferChain::setLength(newLength)` has
no body under `src/`.  Per the spec: `target = ceil(newLength/bufferSize)`;
growing appends fresh pool blocks (contents unspecified, modelled as
zero-filled) and shrinking releases the excess trailing blocks; `d_length`
is set to `newLength` unconditionally after the block-count adjustment. -/
def PooledBufferChain.setLength (c : PooledBufferChain) (newLength : Nat) : PooledBufferChain :=
  let target := ceilDiv newLength c.bufferSize
  if target ≤ c.blocks.length then
    { c with blocks := c.blocks.take target, d_length := newLength }
  else
    { c with
      blocks := c.blocks ++
        List.replicate (target - c.blocks.length) (List.replicate c.bufferSize 0),
      d_length := newLength }

/-- Number of whole tail blocks that `setLength(newLength, source)` moves
from the donor: `min` of the blocks still needed after this chain's own
and the donor's excess blocks beyond what its current length requires. -/
def PooledBufferChain.movedCount (c : PooledBufferChain) (newLength : Nat)
    (donor : PooledBufferChain) : Nat :=
  let target := ceilDiv newLength c.bufferSize
  if target ≤ c.blocks.length then 0
  else
    min (target - c.blocks.length)
      (donor.blocks.length - ceilDiv donor.d_length donor.bufferSize)

/-- Modelled from the spec: `PooledBufferChain::setLength(newLength,
source)` has no body under `src/`.  Per the spec, growth is first satisfied
by unlinking whole excess tail blocks of the donor (blocks beyond
`ceil(donor.length/bufferSize)`) and appending them to this chain's tail;
any remainder comes fresh from the pool; the donor keeps every block it
needs for its own current length.  Returns (this chain, donor) after. -/
def PooledBufferChain.setLengthFrom (c : PooledBufferChain) (newLength : Nat)
    (donor : PooledBufferChain) : PooledBufferChain × PooledBufferChain :=
  let target := ceilDiv newLength c.bufferSize
  if target ≤ c.blocks.length then
    ({ c with blocks := c.blocks.take target, d_length := newLength }, donor)
  else
    let needed := target - c.blocks.length
    let moved := min needed
      (donor.blocks.length - ceilDiv donor.d_length donor.bufferSize)
    ({ c with
        blocks := c.blocks ++ donor.blocks.drop (donor.blocks.length - moved) ++
          List.replicate (needed - moved) (List.replicate c.bufferSize 0),
        d_length := newLength },
     { donor with blocks := donor.blocks.take (donor.blocks.length - moved) })

/-- Modelled from the spec: `PooledBufferChain::removeAll` has no body
under `src/`; it returns every block to the pool and resets the chain to
the empty state (`numBuffers = 0`, `length = 0`). -/
def PooledBufferChain.removeAll (c : PooledBufferChain) : PooledBufferChain :=
  { c with blocks := [], d_length := 0 }

/-- Modelled from the spec: `PooledBufferChain::copyOut(buffer, numBytes,
offset)` has no body under `src/`; it reads chain bytes
`[offset, offset + numBytes)` via the block-walk pattern into the
destination array, returned here as the list of bytes read. -/
def PooledBufferChain.copyOut (c : PooledBufferChain) (numBytes offset : Nat) : List Nat :=
  (List.range numBytes).map (fun i => c.getByte (offset + i))

/-- Modelled from the spec: `PooledBufferChain::replace(offset, buffer,
numBytes)` has no body under `src/`.  Per the spec: if
`offset + numBytes > length()` the chain is first grown (as in
`setLength`) to that size, then the bytes are copied into positions
`[offset, offset + numBytes)` by the block-walk loop. -/
def PooledBufferChain.replace (c : PooledBufferChain) (offset : Nat)
    (data : List Nat) : PooledBufferChain :=
  if c.d_length < offset + data.length then
    (c.setLength (offset + data.length)).writeBytes offset data
  else
    c.writeBytes offset data

/-- `PooledBufferChain::append(buffer, numBytes)` — modelled from the
spec: no body under `src/`; it behaves as growing the chain to
`length() + numBytes` and then copying the data into the newly available
byte range. -/
def PooledBufferChain.append (c : PooledBufferChain) (data : List Nat) : PooledBufferChain :=
  (c.setLength (c.d_length + data.length)).writeBytes c.d_length data

/-- Modelled from the spec: the four-argument
`PooledBufferChain::replace(offset, source, srcOffset, numBytes)` has no
body under `src/`.  Per the spec it performs the same destination
traversal as the three-argument `replace`, with each chunk read from
`source` by the identical traversal starting at `srcOffset` — a pure
byte-stream copy that never shares or relinks blocks between the chains,
and never writes to `source`.  Returns (destination, source) after. -/
def PooledBufferChain.replaceFrom (c : PooledBufferChain) (offset : Nat)
    (source : PooledBufferChain) (srcOffset numBytes : Nat) :
    PooledBufferChain × PooledBufferChain :=
  (c.replace offset (source.copyOut numBytes srcOffset), source)

/-- Modelled from the spec: `PooledBufferChain::loadBuffers(buffers,
numBuffers, index)` has no body under `src/`.  It writes the buffer
pointers for chain positions `index, index + 1, ...` into the output
array, at most `capacity` of them, returns the count written
(`min capacity (numBuffers() - index)`), and leaves the array entries
beyond that count unchanged.  The output array is modelled as the list of
pointed-to payloads; result is (array after the call, returned count). -/
def PooledBufferChain.loadBuffers (c : PooledBufferChain) (out : List (List Nat))
    (capacity startIndex : Nat) : List (List Nat) × Nat :=
  let count := min capacity (c.blocks.length - startIndex)
  (((List.range count).map (fun i => c.buffer (startIndex + i))) ++ out.drop count,
   count)

/-- State of a `bdlmca::PooledBufferChainFactory`: its data-block pool
(`d_bufferPool`).  The control-block pool `d_pcbPool` only supplies raw
storage for chain objects and has no observable modelled here. -/
structure PooledBufferChainFactory where
  d_bufferPool : ConcurrentPool
deriving DecidableEq

/-- `PooledBufferChainFactory::PooledBufferChainFactory(bufferSize, ...)`
(header, inline): constructs `d_bufferPool` with block size
`bufferSize + sizeof(char *)`. -/
def PooledBufferChainFactory.ofBufferSize (bufferSize : Nat) : PooledBufferChainFactory :=
  ⟨⟨bufferSize + sizeofCharPtr⟩⟩

/-- `PooledBufferChainFactory::bufferSize` (header, inline): returns
`d_bufferPool.blockSize() - sizeof(char *)`. -/
def PooledBufferChainFactory.bufferSize (f : PooledBufferChainFactory) : Nat :=
  f.d_bufferPool.blockSize - sizeofCharPtr

/-- `PooledBufferChainFactory::allocate(length)` (header, inline):
constructs a chain bound to `d_bufferPool` and calls `setLength(length)`
on it. -/
def PooledBufferChainFactory.allocate (f : PooledBufferChainFactory)
    (len : Nat) : PooledBufferChain :=
  (mkChain f.d_bufferPool.blockSize).setLength len

/-- One public mutating operation on a chain, for reachability. -/
inductive ChainOp where
  | append (data : List Nat)
  | replace (offset : Nat) (data : List Nat)
  | setLength (n : Nat)
  | removeAll
deriving DecidableEq

/-- Apply one public operation to a chain. -/
def PooledBufferChain.applyOp (c : PooledBufferChain) : ChainOp → PooledBufferChain
  | .append d => c.append d
  | .replace o d => c.replace o d
  | .setLength n => c.setLength n
  | .removeAll => c.removeAll

/-- Run a sequence of public operations on a chain, first to last. -/
def runOps (c : PooledBufferChain) (ops : List ChainOp) : PooledBufferChain :=
  ops.foldl PooledBufferChain.applyOp c

/-- Structural invariant of a chain: the block count matches
`ceil(length / bufferSize)` and every held block has exactly
`bufferSize` payload bytes. -/
def StructInv (c : PooledBufferChain) : Prop :=
  c.blocks.length = ceilDiv c.d_length c.bufferSize ∧
  ∀ b ∈ c.blocks, b.length = c.bufferSize

/-- Weak form of the invariant used for donor chains: at least the blocks
its current length needs, and every block of full payload size. -/
def WeakInv (c : PooledBufferChain) : Prop :=
  ceilDiv c.d_length c.bufferSize ≤ c.blocks.length ∧
  ∀ b ∈ c.blocks, b.length = c.bufferSize

instance (c : PooledBufferChain) : Decidable (StructInv c) := by
  unfold StructInv; infer_instance

instance (c : PooledBufferChain) : Decidable (WeakInv c) := by
  unfold WeakInv; infer_instance

/-! Arithmetic facts about `ceilDiv`. -/

theorem ceilDiv_zero_left (b : Nat) : ceilDiv 0 b = 0 := by
  unfold ceilDiv
  rcases b with _ | b
  · rfl
  · exact Nat.div_eq_of_lt (by omega)

theorem ceilDiv_pos_eq {n b : Nat} (hb : 0 < b) (hn : 0 < n) :
    ceilDiv n b = (n - 1) / b + 1 := by
  unfold ceilDiv
  have h : n + b - 1 = (n - 1) + b := by omega
  rw [h, Nat.add_div_right _ hb]

theorem le_ceilDiv_mul {b : Nat} (hb : 0 < b) (n : Nat) : n ≤ ceilDiv n b * b := by
  rcases Nat.eq_zero_or_pos n with hn | hn
  · simp [hn, ceilDiv_zero_left]
  · rw [ceilDiv_pos_eq hb hn, Nat.succ_mul]
    have hdm : (n - 1) / b * b + (n - 1) % b = n - 1 := Nat.div_add_mod' _ _
    have hr : (n - 1) % b < b := Nat.mod_lt _ hb
    omega

theorem div_lt_ceilDiv {b j n : Nat} (hb : 0 < b) (hj : j < n) :
    j / b < ceilDiv n b := by
  rw [ceilDiv_pos_eq hb (by omega)]
  have : j / b ≤ (n - 1) / b := Nat.div_le_div_right (by omega)
  omega

theorem ceilDiv_le_ceilDiv {m n b : Nat} (h : m ≤ n) :
    ceilDiv m b ≤ ceilDiv n b :=
  Nat.div_le_div_right (by omega)

theorem ceilDiv_eq_zero_iff {n b : Nat} (hb : 0 < b) :
    ceilDiv n b = 0 ↔ n = 0 := by
  constructor
  · intro h
    by_contra hn
    have h0 := div_lt_ceilDiv (j := 0) hb (Nat.pos_of_ne_zero hn)
    rw [Nat.zero_div] at h0
    omega
  · intro h; subst h; exact ceilDiv_zero_left b

/-! Field-preservation lemmas for the chain operations. -/

@[simp] theorem numBuffers_def (c : PooledBufferChain) :
    c.numBuffers = c.blocks.length := rfl

@[simp] theorem length_def (c : PooledBufferChain) : c.length = c.d_length := rfl

@[simp] theorem poolBlockSize_setLength (c : PooledBufferChain) (n : Nat) :
    (c.setLength n).poolBlockSize = c.poolBlockSize := by
  simp only [PooledBufferChain.setLength]
  split <;> rfl

@[simp] theorem bufferSize_setLength (c : PooledBufferChain) (n : Nat) :
    (c.setLength n).bufferSize = c.bufferSize := by
  unfold PooledBufferChain.bufferSize
  rw [poolBlockSize_setLength]

@[simp] theorem d_length_setLength (c : PooledBufferChain) (n : Nat) :
    (c.setLength n).d_length = n := by
  simp only [PooledBufferChain.setLength]
  split <;> rfl

@[simp] theorem numBuffers_setLength (c : PooledBufferChain) (n : Nat) :
    (c.setLength n).blocks.length = ceilDiv n c.bufferSize := by
  simp only [PooledBufferChain.setLength]
  split
  · rename_i h
    simpa using h
  · rename_i h
    simp only [List.length_append, List.length_replicate]
    omega

theorem wf_setLength {c : PooledBufferChain}
    (hwf : ∀ b ∈ c.blocks, b.length = c.bufferSize) (n : Nat) :
    ∀ b ∈ (c.setLength n).blocks, b.length = c.bufferSize := by
  intro b hb
  simp only [PooledBufferChain.setLength] at hb
  split at hb
  · exact hwf b (List.mem_of_mem_take hb)
  · rcases List.mem_append.1 hb with h | h
    · exact hwf b h
    · rw [List.eq_of_mem_replicate h]
      exact List.length_replicate _ _

@[simp] theorem poolBlockSize_writeByte (c : PooledBufferChain) (p v : Nat) :
    (c.writeByte p v).poolBlockSize = c.poolBlockSize := rfl

@[simp] theorem bufferSize_writeByte (c : PooledBufferChain) (p v : Nat) :
    (c.writeByte p v).bufferSize = c.bufferSize := rfl

@[simp] theorem d_length_writeByte (c : PooledBufferChain) (p v : Nat) :
    (c.writeByte p v).d_length = c.d_length := rfl

@[simp] theorem numBuffers_writeByte (c : PooledBufferChain) (p v : Nat) :
    (c.writeByte p v).blocks.length = c.blocks.length := by
  unfold PooledBufferChain.writeByte
  exact List.length_set _ _ _

theorem wf_writeByte {c : PooledBufferChain}
    (hwf : ∀ b ∈ c.blocks, b.length = c.bufferSize) (p v : Nat) :
    ∀ b ∈ (c.writeByte p v).blocks, b.length = c.bufferSize := by
  intro b hb
  unfold PooledBufferChain.writeByte at hb
  simp only at hb
  by_cases hidx : p / c.bufferSize < c.blocks.length
  · rcases List.mem_or_eq_of_mem_set hb with h | h
    · exact hwf b h
    · subst h
      rw [List.length_set]
      unfold PooledBufferChain.buffer
      rw [List.getElem?_eq_getElem hidx]
      exact hwf _ (List.getElem_mem hidx)
  · rw [List.set_eq_of_length_le (by omega)] at hb
    exact hwf b hb

@[simp] theorem poolBlockSize_writeBytes (c : PooledBufferChain) (o : Nat)
    (data : List Nat) : (c.writeBytes o data).poolBlockSize = c.poolBlockSize := by
  induction data generalizing c o with
  | nil => rfl
  | cons v rest ih => exact ih _ _

@[simp] theorem bufferSize_writeBytes (c : PooledBufferChain) (o : Nat)
    (data : List Nat) : (c.writeBytes o data).bufferSize = c.bufferSize := by
  unfold PooledBufferChain.bufferSize
  rw [poolBlockSize_writeBytes]

@[simp] theorem d_length_writeBytes (c : PooledBufferChain) (o : Nat)
    (data : List Nat) : (c.writeBytes o data).d_length = c.d_length := by
  induction data generalizing c o with
  | nil => rfl
  | cons v rest ih => exact ih _ _

@[simp] theorem numBuffers_writeBytes (c : PooledBufferChain) (o : Nat)
    (data : List Nat) : (c.writeBytes o data).blocks.length = c.blocks.length := by
  induction data generalizing c o with
  | nil => rfl
  | cons v rest ih =>
      show ((c.writeByte o v).writeBytes (o + 1) rest).blocks.length = _
      rw [ih, numBuffers_writeByte]

theorem wf_writeBytes {c : PooledBufferChain}
    (hwf : ∀ b ∈ c.blocks, b.length = c.bufferSize) (o : Nat) (data : List Nat) :
    ∀ b ∈ (c.writeBytes o data).blocks, b.length = c.bufferSize := by
  induction data generalizing c o with
  | nil => exact hwf
  | cons v rest ih =>
      show ∀ b ∈ ((c.writeByte o v).writeBytes (o + 1) rest).blocks, _
      exact ih (wf_writeByte hwf o v) (o + 1)

/-! Reading and writing single chain positions. -/

theorem getByte_writeByte_self {c : PooledBufferChain} {p : Nat} (v : Nat)
    (hidx : p / c.bufferSize < c.blocks.length)
    (hoff : p % c.bufferSize < (c.buffer (p / c.bufferSize)).length) :
    (c.writeByte p v).getByte p = v := by
  simp only [PooledBufferChain.getByte, PooledBufferChain.writeByte,
    PooledBufferChain.buffer, PooledBufferChain.bufferSize] at *
  rw [List.getElem?_set]
  simp only [if_pos rfl, hidx, if_true, Option.getD_some]
  rw [List.getElem?_set]
  simp [hoff]

theorem getByte_writeByte_ne {c : PooledBufferChain} {p q : Nat} (v : Nat)
    (hbs : 0 < c.bufferSize) (hne : p ≠ q) :
    (c.writeByte p v).getByte q = c.getByte q := by
  by_cases hdiv : p / c.bufferSize = q / c.bufferSize
  · have hmod : p % c.bufferSize ≠ q % c.bufferSize := by
      intro hmod
      have hp := Nat.div_add_mod' p c.bufferSize
      have hq := Nat.div_add_mod' q c.bufferSize
      rw [hdiv, hmod] at hp
      omega
    simp only [PooledBufferChain.getByte, PooledBufferChain.writeByte,
      PooledBufferChain.buffer, PooledBufferChain.bufferSize] at *
    rw [List.getElem?_set]
    by_cases hlt : q / (c.poolBlockSize - sizeofCharPtr) < c.blocks.length
    · rw [hdiv]
      simp only [if_pos rfl, hlt, if_true, Option.getD_some]
      rw [List.getElem?_set]
      simp [hmod, hdiv]
    · rw [hdiv]
      simp only [if_pos rfl]
      rw [if_neg hlt]
      rw [List.getElem?_eq_none (Nat.le_of_not_lt hlt)]
      simp
  · simp only [PooledBufferChain.getByte, PooledBufferChain.writeByte,
      PooledBufferChain.buffer, PooledBufferChain.bufferSize] at *
    rw [List.getElem?_set]
    simp [hdiv]

theorem getByte_writeBytes_of_lt {c : PooledBufferChain} (hbs : 0 < c.bufferSize)
    {o q : Nat} (data : List Nat) (hq : q < o) :
    (c.writeBytes o data).getByte q = c.getByte q := by
  induction data generalizing c o with
  | nil => rfl
  | cons v rest ih =>
      show ((c.writeByte o v).writeBytes (o + 1) rest).getByte q = _
      rw [ih (c := c.writeByte o v) (o := o + 1) hbs (by omega),
        getByte_writeByte_ne v hbs (by omega)]

theorem getByte_writeBytes_of_ge {c : PooledBufferChain} (hbs : 0 < c.bufferSize)
    {o q : Nat} (data : List Nat) (hq : o + data.length ≤ q) :
    (c.writeBytes o data).getByte q = c.getByte q := by
  induction data generalizing c o with
  | nil => rfl
  | cons v rest ih =>
      simp only [List.length_cons] at hq
      show ((c.writeByte o v).writeBytes (o + 1) rest).getByte q = _
      rw [ih (c := c.writeByte o v) (o := o + 1) hbs (by omega),
        getByte_writeByte_ne v hbs (by omega)]

theorem getByte_writeBytes_read {c : PooledBufferChain} (hbs : 0 < c.bufferSize)
    (hwf : ∀ b ∈ c.blocks, b.length = c.bufferSize) {o : Nat} {data : List Nat}
    (hcap : o + data.length ≤ c.blocks.length * c.bufferSize)
    {i : Nat} (hi : i < data.length) :
    (c.writeBytes o data).getByte (o + i) = (data[i]?).getD 0 := by
  induction data generalizing c o i with
  | nil => simp at hi
  | cons v rest ih =>
      simp only [List.length_cons] at hcap
      show ((c.writeByte o v).writeBytes (o + 1) rest).getByte (o + i) = _
      rcases i with _ | j
      · have hidx : o / c.bufferSize < c.blocks.length := by
          rw [Nat.div_lt_iff_lt_mul hbs]
          have hbnd := le_ceilDiv_mul hbs o
          omega
        have hoff : o % c.bufferSize < (c.buffer (o / c.bufferSize)).length := by
          unfold PooledBufferChain.buffer
          rw [List.getElem?_eq_getElem hidx, Option.getD_some,
            hwf _ (List.getElem_mem hidx)]
          exact Nat.mod_lt _ hbs
        have h1 : ((c.writeByte o v).writeBytes (o + 1) rest).getByte (o + 0)
            = (c.writeByte o v).getByte (o + 0) :=
          getByte_writeBytes_of_lt (c := c.writeByte o v) (o := o + 1) hbs rest
            (by omega)
        rw [h1, Nat.add_zero, getByte_writeByte_self v hidx hoff]
        simp
      · have harith : o + (j + 1) = (o + 1) + j := by omega
        rw [harith,
          ih (c := c.writeByte o v) hbs (wf_writeByte hwf o v)
            (by rw [numBuffers_writeByte, bufferSize_writeByte]; omega)
            (by simpa using hi)]
        simp

/-! Effect of `setLength` on existing bytes, and `setLength` at the
current length. -/

theorem getByte_setLength_of_le {c : PooledBufferChain} (hbs : 0 < c.bufferSize)
    (hInv : StructInv c) {m j : Nat} (hm : c.d_length ≤ m) (hj : j < c.d_length) :
    (c.setLength m).getByte j = c.getByte j := by
  have hidx : j / c.bufferSize < c.blocks.length := by
    rw [hInv.1]; exact div_lt_ceilDiv hbs hj
  have hblk : (c.setLength m).blocks[j / c.bufferSize]? =
      c.blocks[j / c.bufferSize]? := by
    simp only [PooledBufferChain.setLength]
    split
    · rename_i h
      have hle : c.blocks.length ≤ ceilDiv m c.bufferSize :=
        hInv.1 ▸ ceilDiv_le_ceilDiv hm
      have heq : ceilDiv m c.bufferSize = c.blocks.length := le_antisymm h hle
      rw [heq, List.take_length]
    · exact List.getElem?_append_left hidx
  simp only [PooledBufferChain.getByte, PooledBufferChain.buffer,
    bufferSize_setLength]
  rw [hblk]

theorem setLength_self {c : PooledBufferChain} (hInv : StructInv c) :
    c.setLength c.d_length = c := by
  simp only [PooledBufferChain.setLength]
  rw [← hInv.1]
  simp [List.take_length]

/-! Indexing a flattening of uniformly sized blocks by block-walk
arithmetic. -/

theorem flatten_getElem?_uniform {bs : Nat} (hbs : 0 < bs) (L : List (List Nat))
    (hwf : ∀ b ∈ L, b.length = bs) :
    ∀ i : Nat, i < L.length * bs →
      L.flatten[i]? = ((L[i / bs]?).getD [])[i % bs]? := by
  induction L with
  | nil => intro i hi; simp at hi
  | cons b rest ih =>
      intro i hi
      have hb : b.length = bs := hwf b (by simp)
      simp only [List.flatten_cons]
      by_cases hlt : i < bs
      · rw [Nat.div_eq_of_lt hlt, Nat.mod_eq_of_lt hlt,
          List.getElem?_append_left (by omega), List.getElem?_cons_zero,
          Option.getD_some]
      · push_neg at hlt
        rw [List.getElem?_append_right (by omega),
          Nat.div_eq_sub_div hbs hlt, Nat.mod_eq_sub_mod hlt, hb,
          List.getElem?_cons_succ]
        refine ih (fun x hx => hwf x (by simp [hx])) (i - bs) ?_
        simp only [List.length_cons] at hi
        have hsm : (rest.length + 1) * bs = rest.length * bs + bs :=
          Nat.succ_mul _ _
        omega

/-! Byte-level behaviour of `replace`. -/

theorem getByte_replace {c : PooledBufferChain} (offset : Nat) (data : List Nat)
    (hInv : StructInv c) (hbs : 0 < c.bufferSize) {i : Nat} (hi : i < data.length) :
    (c.replace offset data).getByte (offset + i) = (data[i]?).getD 0 := by
  unfold PooledBufferChain.replace
  split
  · rename_i hgrow
    set c1 := c.setLength (offset + data.length) with hc1
    have hbs1 : 0 < c1.bufferSize := by rw [hc1, bufferSize_setLength]; exact hbs
    have hwf1 : ∀ b ∈ c1.blocks, b.length = c1.bufferSize := by
      intro b hb
      rw [hc1, bufferSize_setLength]
      exact wf_setLength hInv.2 _ b (hc1 ▸ hb)
    refine getByte_writeBytes_read hbs1 hwf1 ?_ hi
    rw [hc1, numBuffers_setLength, bufferSize_setLength]
    exact le_ceilDiv_mul hbs _
  · rename_i hng
    refine getByte_writeBytes_read hbs hInv.2 ?_ hi
    have h1 : c.d_length ≤ ceilDiv c.d_length c.bufferSize * c.bufferSize :=
      le_ceilDiv_mul hbs _
    have h2 : c.blocks.length * c.bufferSize =
        ceilDiv c.d_length c.bufferSize * c.bufferSize := by rw [hInv.1]
    omega

theorem getByte_replace_frame {c : PooledBufferChain} (offset : Nat)
    (data : List Nat) (hInv : StructInv c) (hbs : 0 < c.bufferSize) {j : Nat}
    (hj : j < c.d_length) (hout : j < offset ∨ offset + data.length ≤ j) :
    (c.replace offset data).getByte j = c.getByte j := by
  unfold PooledBufferChain.replace
  split
  · rename_i hgrow
    set c1 := c.setLength (offset + data.length) with hc1
    have hbs1 : 0 < c1.bufferSize := by rw [hc1, bufferSize_setLength]; exact hbs
    have hmid : (c1.writeBytes offset data).getByte j = c1.getByte j := by
      rcases hout with h | h
      · exact getByte_writeBytes_of_lt hbs1 data h
      · exact getByte_writeBytes_of_ge hbs1 data h
    rw [hmid, hc1, getByte_setLength_of_le hbs hInv (by omega) hj]
  · rcases hout with h | h
    · exact getByte_writeBytes_of_lt hbs data h
    · exact getByte_writeBytes_of_ge hbs data h

theorem d_length_replace (c : PooledBufferChain) (offset : Nat) (data : List Nat) :
    (c.replace offset data).d_length = max c.d_length (offset + data.length) := by
  unfold PooledBufferChain.replace
  split
  · rename_i h
    rw [d_length_writeBytes, d_length_setLength]
    omega
  · rename_i h
    rw [d_length_writeBytes]
    omega

/-! Invariant preservation for all public operations. -/

theorem structInv_writeBytes {c : PooledBufferChain} (hInv : StructInv c)
    (o : Nat) (data : List Nat) : StructInv (c.writeBytes o data) := by
  constructor
  · rw [numBuffers_writeBytes, d_length_writeBytes, bufferSize_writeBytes]
    exact hInv.1
  · intro b hb
    rw [bufferSize_writeBytes]
    exact wf_writeBytes hInv.2 o data b hb

theorem structInv_setLength {c : PooledBufferChain}
    (hwf : ∀ b ∈ c.blocks, b.length = c.bufferSize) (n : Nat) :
    StructInv (c.setLength n) := by
  constructor
  · rw [numBuffers_setLength, d_length_setLength, bufferSize_setLength]
  · intro b hb
    rw [bufferSize_setLength]
    exact wf_setLength hwf n b hb

theorem structInv_applyOp {c : PooledBufferChain} (hInv : StructInv c)
    (op : ChainOp) : StructInv (c.applyOp op) := by
  cases op with
  | append d =>
      exact structInv_writeBytes (structInv_setLength hInv.2 _) _ _
  | replace o d =>
      show StructInv (c.replace o d)
      unfold PooledBufferChain.replace
      split
      · exact structInv_writeBytes (structInv_setLength hInv.2 _) _ _
      · exact structInv_writeBytes hInv _ _
  | setLength n => exact structInv_setLength hInv.2 n
  | removeAll =>
      constructor
      · exact (ceilDiv_zero_left _).symm
      · intro b hb
        exact absurd hb (List.not_mem_nil b)


theorem structInv_runOps {c : PooledBufferChain} (hInv : StructInv c)
    (ops : List ChainOp) : StructInv (runOps c ops) := by
  induction ops generalizing c with
  | nil => exact hInv
  | cons op rest ih =>
      show StructInv (runOps (c.applyOp op) rest)
      exact ih (structInv_applyOp hInv op)

theorem structInv_mkChain (poolBlockSize : Nat) :
    StructInv (mkChain poolBlockSize) := by
  constructor
  · exact (ceilDiv_zero_left _).symm
  · intro b hb
    simp [mkChain] at hb

theorem bufferSize_applyOp (c : PooledBufferChain) (op : ChainOp) :
    (c.applyOp op).bufferSize = c.bufferSize := by
  cases op with
  | append d =>
      show ((c.setLength _).writeBytes _ _).bufferSize = _
      rw [bufferSize_writeBytes, bufferSize_setLength]
  | replace o d =>
      show (c.replace o d).bufferSize = _
      unfold PooledBufferChain.replace
      split
      · rw [bufferSize_writeBytes, bufferSize_setLength]
      · rw [bufferSize_writeBytes]
  | setLength n => exact bufferSize_setLength c n
  | removeAll => rfl

theorem bufferSize_runOps (c : PooledBufferChain) (ops : List ChainOp) :
    (runOps c ops).bufferSize = c.bufferSize := by
  induction ops generalizing c with
  | nil => rfl
  | cons op rest ih =>
      show (runOps (c.applyOp op) rest).bufferSize = _
      rw [ih, bufferSize_applyOp]

/-! The claim theorems. -/

/-- C1: for every reachable state of a chain (empty at construction, then
any sequence of public operations append/replace/setLength/removeAll),
`numBuffers() == 0` iff `length() == 0`, and whenever `length() == L > 0`,
`numBuffers() == ceil(L / bufferSize())`. -/
theorem reachable_chain_invariant (poolBlockSize : Nat) (ops : List ChainOp)
    (hbs : sizeofCharPtr < poolBlockSize) :
    ((runOps (mkChain poolBlockSize) ops).numBuffers = 0 ↔
      (runOps (mkChain poolBlockSize) ops).length = 0) ∧
    (0 < (runOps (mkChain poolBlockSize) ops).length →
      (runOps (mkChain poolBlockSize) ops).numBuffers =
        ceilDiv (runOps (mkChain poolBlockSize) ops).length
          (runOps (mkChain poolBlockSize) ops).bufferSize) := by
  set c := runOps (mkChain poolBlockSize) ops with hc
  have hInv : StructInv c := structInv_runOps (structInv_mkChain poolBlockSize) ops
  have hbs0 : 0 < c.bufferSize := by
    rw [hc, bufferSize_runOps]
    show 0 < poolBlockSize - sizeofCharPtr
    omega
  constructor
  · rw [numBuffers_def, length_def, hInv.1]
    exact ceilDiv_eq_zero_iff hbs0
  · intro _
    rw [numBuffers_def, length_def]
    exact hInv.1

/-- Witness for C1 at a concrete pool block size and operation sequence. -/
theorem reachable_chain_invariant_witness :
    sizeofCharPtr < 16 ∧
    ((runOps (mkChain 16) [ChainOp.append [1, 2, 3], ChainOp.setLength 10]).numBuffers = 0 ↔
      (runOps (mkChain 16) [ChainOp.append [1, 2, 3], ChainOp.setLength 10]).length = 0) ∧
    (0 < (runOps (mkChain 16) [ChainOp.append [1, 2, 3], ChainOp.setLength 10]).length →
      (runOps (mkChain 16) [ChainOp.append [1, 2, 3], ChainOp.setLength 10]).numBuffers =
        ceilDiv (runOps (mkChain 16) [ChainOp.append [1, 2, 3], ChainOp.setLength 10]).length
          (runOps (mkChain 16) [ChainOp.append [1, 2, 3], ChainOp.setLength 10]).bufferSize) :=
  ⟨by decide,
   reachable_chain_invariant 16 [ChainOp.append [1, 2, 3], ChainOp.setLength 10] (by decide)⟩

/-- C3: after `setLength(N)` then `setLength(M)` the chain satisfies
`length() == M` and `numBuffers() == ceil(M / bufferSize())`; `totalLength`
is set to the requested new length unconditionally after the block-count
adjustment, in both the grow and the shrink direction. -/
theorem setLength_setLength_spec (c : PooledBufferChain) (N M : Nat) :
    ((c.setLength N).setLength M).length = M ∧
    ((c.setLength N).setLength M).numBuffers = ceilDiv M c.bufferSize := by
  constructor
  · rw [length_def, d_length_setLength]
  · rw [numBuffers_def, numBuffers_setLength, bufferSize_setLength]

/-- C8: a factory built with requested buffer size `B` reports
`bufferSize() == B`, its pool block size is `B` plus the link-field size,
and every chain it produces also reports `bufferSize() == B`. -/
theorem factory_bufferSize_spec (B L : Nat) :
    (PooledBufferChainFactory.ofBufferSize B).d_bufferPool.blockSize =
      B + sizeofCharPtr ∧
    (PooledBufferChainFactory.ofBufferSize B).bufferSize = B ∧
    ((PooledBufferChainFactory.ofBufferSize B).allocate L).bufferSize = B := by
  refine ⟨rfl, ?_, ?_⟩
  · show B + sizeofCharPtr - sizeofCharPtr = B
    omega
  · show ((mkChain (B + sizeofCharPtr)).setLength L).bufferSize = B
    rw [bufferSize_setLength]
    show B + sizeofCharPtr - sizeofCharPtr = B
    omega

/-- C10: for a factory with requested buffer size `B >= 1`, every chain it
produces — through any later sequence of public operations — has
`bufferSize() > 0`, so the `index / bufferSize()` and `index % bufferSize()`
computed by `operator[]` never divide by zero. -/
theorem chain_bufferSize_pos (B L : Nat) (ops : List ChainOp) (hB : 1 ≤ B) :
    0 < (runOps ((PooledBufferChainFactory.ofBufferSize B).allocate L)
      ops).bufferSize := by
  rw [bufferSize_runOps]
  show 0 < ((mkChain (B + sizeofCharPtr)).setLength L).bufferSize
  rw [bufferSize_setLength]
  show 0 < B + sizeofCharPtr - sizeofCharPtr
  omega

/-- Witness for C10 at `B = 1`, `L = 20`, one later operation. -/
theorem chain_bufferSize_pos_witness :
    1 ≤ 1 ∧
    0 < (runOps ((PooledBufferChainFactory.ofBufferSize 1).allocate 20)
      [ChainOp.setLength 3]).bufferSize :=
  ⟨by decide, chain_bufferSize_pos 1 20 [ChainOp.setLength 3] (by decide)⟩

/-- C5: `append(data, n)` produces exactly the same chain state as
`replace(L, data, n)` where `L` is `length()` evaluated before the append;
in particular appending 0 bytes leaves the chain unchanged. -/
theorem append_eq_replace_at_length (c : PooledBufferChain) (data : List Nat)
    (hInv : StructInv c) :
    c.append data = c.replace c.length data ∧ c.append [] = c := by
  have h0 : c.append [] = c := by
    show c.setLength (c.d_length + 0) = c
    rw [Nat.add_zero]
    exact setLength_self hInv
  refine ⟨?_, h0⟩
  rcases data with _ | ⟨v, rest⟩
  · rw [h0]
    show c = c.replace c.d_length []
    unfold PooledBufferChain.replace
    rw [if_neg (by simp)]
    rfl
  · unfold PooledBufferChain.append PooledBufferChain.replace
    rw [if_pos (by rw [length_def]; simp)]
    rw [length_def]

/-- Witness for C5 on an empty chain with buffer size 8 and 2 bytes. -/
theorem append_eq_replace_at_length_witness :
    StructInv (mkChain 16) ∧
    ((mkChain 16).append [5, 6] = (mkChain 16).replace (mkChain 16).length [5, 6] ∧
      (mkChain 16).append [] = mkChain 16) :=
  ⟨by decide, append_eq_replace_at_length (mkChain 16) [5, 6] (by decide)⟩

/-- C7: for `0 <= index < length()`, both the mutable and the const
`operator[]` return the byte of `buffer(index / bufferSize())` at in-block
offset `index % bufferSize()` — which is byte `index` of the chain's
flattened contents. -/
theorem opIndex_spec (c : PooledBufferChain) (i : Nat) (hInv : StructInv c)
    (hbs : 0 < c.bufferSize) (hi : i < c.length) :
    c.opIndexMut i = ((c.buffer (i / c.bufferSize))[i % c.bufferSize]?).getD 0 ∧
    c.opIndexConst i = ((c.buffer (i / c.bufferSize))[i % c.bufferSize]?).getD 0 ∧
    c.opIndexMut i = (c.blocks.flatten[i]?).getD 0 := by
  refine ⟨rfl, rfl, ?_⟩
  have hcap : i < c.blocks.length * c.bufferSize := by
    have h1 := le_ceilDiv_mul hbs c.d_length
    have h2 : c.blocks.length * c.bufferSize =
        ceilDiv c.d_length c.bufferSize * c.bufferSize := by rw [hInv.1]
    rw [length_def] at hi
    omega
  show ((c.buffer (i / c.bufferSize))[i % c.bufferSize]?).getD 0 = _
  rw [flatten_getElem?_uniform hbs c.blocks hInv.2 i hcap]
  rfl

/-- Concrete two-block chain used by witnesses: buffer size 8, length 10. -/
def chainW : PooledBufferChain :=
  ⟨16, [[10, 11, 12, 13, 14, 15, 16, 17], [20, 21, 22, 23, 24, 25, 26, 27]], 10⟩

/-- Witness for C7 at index 9 (block 1, in-block offset 1). -/
theorem opIndex_spec_witness :
    StructInv chainW ∧ 0 < chainW.bufferSize ∧ 9 < chainW.length ∧
    (chainW.opIndexMut 9 =
        ((chainW.buffer (9 / chainW.bufferSize))[9 % chainW.bufferSize]?).getD 0 ∧
      chainW.opIndexConst 9 =
        ((chainW.buffer (9 / chainW.bufferSize))[9 % chainW.bufferSize]?).getD 0 ∧
      chainW.opIndexMut 9 = (chainW.blocks.flatten[9]?).getD 0) :=
  ⟨by decide, by decide, by decide,
   opIndex_spec chainW 9 (by decide) (by decide) (by decide)⟩

/-- C9: with `numBuffers() > 0`, `0 <= startIndex < numBuffers()` and the
output array sized for `capacity`, `loadBuffers` writes the buffer
pointers for positions `startIndex, startIndex + 1, ...` in order,
returns `min(capacity, numBuffers() - startIndex)`, and leaves the array
entries beyond the returned count unchanged. -/
theorem loadBuffers_spec (c : PooledBufferChain) (out : List (List Nat))
    (capacity startIndex : Nat) (hnb : 0 < c.numBuffers)
    (hsi : startIndex < c.numBuffers) (hcap : capacity ≤ out.length) :
    (c.loadBuffers out capacity startIndex).2 =
      min capacity (c.numBuffers - startIndex) ∧
    (∀ i < (c.loadBuffers out capacity startIndex).2,
      ((c.loadBuffers out capacity startIndex).1)[i]? =
        some (c.buffer (startIndex + i))) ∧
    (∀ i, (c.loadBuffers out capacity startIndex).2 ≤ i →
      ((c.loadBuffers out capacity startIndex).1)[i]? = out[i]?) := by
  refine ⟨rfl, ?_, ?_⟩
  · intro i hi
    show (((List.range (min capacity (c.blocks.length - startIndex))).map
        (fun k => c.buffer (startIndex + k))) ++
        out.drop (min capacity (c.blocks.length - startIndex)))[i]? = _
    have hi2 : i < min capacity (c.blocks.length - startIndex) := hi
    rw [List.getElem?_append_left
      (by rw [List.length_map, List.length_range]; exact hi2)]
    rw [List.getElem?_map, List.getElem?_range hi2]
    rfl
  · intro i hi
    show (((List.range (min capacity (c.blocks.length - startIndex))).map
        (fun k => c.buffer (startIndex + k))) ++
        out.drop (min capacity (c.blocks.length - startIndex)))[i]? = out[i]?
    rw [List.getElem?_append_right
      (by rw [List.length_map, List.length_range]; exact hi)]
    rw [List.length_map, List.length_range, List.getElem?_drop]
    congr 1
    have hle : min capacity (c.blocks.length - startIndex) ≤ i := hi
    omega

/-- C2: for `0 <= offset <= length()`, `replace(offset, data, numBytes)`
followed by `copyOut(dest, numBytes, offset)` yields `dest` equal to
`data` byte for byte. -/
theorem replace_copyOut_roundtrip (c : PooledBufferChain) (offset : Nat)
    (data : List Nat) (hInv : StructInv c) (hbs : 0 < c.bufferSize)
    (hoff : offset ≤ c.length) :
    (c.replace offset data).copyOut data.length offset = data := by
  apply List.ext_getElem
  · simp [PooledBufferChain.copyOut]
  · intro i h1 h2
    simp only [PooledBufferChain.copyOut, List.length_map,
      List.length_range] at h1
    show ((List.range data.length).map
      (fun k => (c.replace offset data).getByte (offset + k)))[i] = data[i]
    rw [List.getElem_map, List.getElem_range]
    have key := getByte_replace offset data hInv hbs (i := i) h1
    rw [List.getElem?_eq_getElem h1, Option.getD_some] at key
    exact key

/-- Witness for C2 on an empty chain, offset 0, three bytes. -/
theorem replace_copyOut_roundtrip_witness :
    StructInv (mkChain 16) ∧ 0 < (mkChain 16).bufferSize ∧
    0 ≤ (mkChain 16).length ∧
    ((mkChain 16).replace 0 [1, 2, 3]).copyOut 3 0 = [1, 2, 3] :=
  ⟨by decide, by decide, by decide,
   replace_copyOut_roundtrip (mkChain 16) 0 [1, 2, 3]
     (by decide) (by decide) (by decide)⟩

/-- C6: cross-chain `replace(offset, source, srcOffset, numBytes)` leaves
the source chain unchanged, copies exactly the bytes of source positions
`[srcOffset, srcOffset + numBytes)` into destination positions
`[offset, offset + numBytes)`, leaves the destination's other existing
bytes unchanged (a pure byte-stream copy, no block sharing or relinking),
and extends the destination to `offset + numBytes` only when needed. -/
theorem replaceFrom_spec (c source : PooledBufferChain)
    (offset srcOffset numBytes : Nat) (hInv : StructInv c)
    (hbs : 0 < c.bufferSize) (hoff : offset ≤ c.length)
    (hsrc : srcOffset + numBytes ≤ source.length) :
    (c.replaceFrom offset source srcOffset numBytes).2 = source ∧
    (∀ i < numBytes,
      (c.replaceFrom offset source srcOffset numBytes).1.getByte (offset + i) =
        source.getByte (srcOffset + i)) ∧
    (∀ j, j < offset ∨ offset + numBytes ≤ j → j < c.length →
      (c.replaceFrom offset source srcOffset numBytes).1.getByte j =
        c.getByte j) ∧
    (c.replaceFrom offset source srcOffset numBytes).1.length =
      max c.length (offset + numBytes) := by
  have hlen : (source.copyOut numBytes srcOffset).length = numBytes := by
    simp [PooledBufferChain.copyOut]
  refine ⟨rfl, ?_, ?_, ?_⟩
  · intro i hi
    show (c.replace offset (source.copyOut numBytes srcOffset)).getByte
        (offset + i) = source.getByte (srcOffset + i)
    rw [getByte_replace offset _ hInv hbs (i := i) (by rw [hlen]; exact hi)]
    show ((List.range numBytes).map
      (fun k => source.getByte (srcOffset + k)))[i]?.getD 0 = _
    rw [List.getElem?_map, List.getElem?_range hi]
    rfl
  · intro j hout hj
    show (c.replace offset (source.copyOut numBytes srcOffset)).getByte j =
      c.getByte j
    refine getByte_replace_frame offset _ hInv hbs hj ?_
    rcases hout with hlt | hge
    · exact Or.inl hlt
    · right
      rw [hlen]
      exact hge
  · show (c.replace offset (source.copyOut numBytes srcOffset)).length = _
    rw [length_def, d_length_replace, hlen, length_def]

/-- Witness for C6: empty destination, the two-block chain as source,
window of three bytes starting at source position 1. -/
theorem replaceFrom_spec_witness :
    StructInv (mkChain 16) ∧ 0 < (mkChain 16).bufferSize ∧
    0 ≤ (mkChain 16).length ∧ 1 + 3 ≤ chainW.length ∧
    (((mkChain 16).replaceFrom 0 chainW 1 3).2 = chainW ∧
      (∀ i < 3, ((mkChain 16).replaceFrom 0 chainW 1 3).1.getByte (0 + i) =
        chainW.getByte (1 + i)) ∧
      (∀ j, j < 0 ∨ 0 + 3 ≤ j → j < (mkChain 16).length →
        ((mkChain 16).replaceFrom 0 chainW 1 3).1.getByte j =
          (mkChain 16).getByte j) ∧
      ((mkChain 16).replaceFrom 0 chainW 1 3).1.length =
        max (mkChain 16).length (0 + 3)) :=
  ⟨by decide, by decide, by decide, by decide,
   replaceFrom_spec (mkChain 16) chainW 0 1 3
     (by decide) (by decide) (by decide) (by decide)⟩

/-- Length of a take at `length - m`, used for the donor chain. -/
theorem take_sub_length {α : Type} (l : List α) (m : Nat) :
    (l.take (l.length - m)).length = l.length - m := by
  rw [List.length_take]
  exact Nat.min_eq_left (Nat.sub_le _ _)

/-- C4: after `setLength(newLen, donor)` with a donor chain on the same
pool, the donor's `length()` is unchanged, its `numBuffers()` decreases
exactly by the number of whole tail blocks actually moved to this chain,
never dropping below `ceil(donor.length() / bufferSize())`, and the bytes
the donor still needs (positions `[0, donor.length())`) are untouched;
this chain reaches the requested length and block count. -/
theorem setLengthFrom_donor_spec (c donor : PooledBufferChain)
    (newLength : Nat) (hpool : donor.poolBlockSize = c.poolBlockSize)
    (hdW : WeakInv donor) (hbs : 0 < c.bufferSize) :
    (c.setLengthFrom newLength donor).2.length = donor.length ∧
    (c.setLengthFrom newLength donor).2.numBuffers =
      donor.numBuffers - c.movedCount newLength donor ∧
    ceilDiv donor.length donor.bufferSize ≤
      (c.setLengthFrom newLength donor).2.numBuffers ∧
    (∀ i < donor.length,
      (c.setLengthFrom newLength donor).2.getByte i = donor.getByte i) ∧
    (c.setLengthFrom newLength donor).1.length = newLength ∧
    (c.setLengthFrom newLength donor).1.numBuffers =
      ceilDiv newLength c.bufferSize := by
  simp only [length_def, numBuffers_def]
  have hbsd : donor.bufferSize = c.bufferSize := by
    unfold PooledBufferChain.bufferSize
    rw [hpool]
  by_cases h : ceilDiv newLength c.bufferSize ≤ c.blocks.length
  · have hres : c.setLengthFrom newLength donor =
        (⟨c.poolBlockSize, c.blocks.take (ceilDiv newLength c.bufferSize),
          newLength⟩, donor) := by
      simp only [PooledBufferChain.setLengthFrom]
      rw [if_pos h]
    have hmoved : c.movedCount newLength donor = 0 := by
      simp only [PooledBufferChain.movedCount]
      rw [if_pos h]
    rw [hres, hmoved]
    refine ⟨rfl, by dsimp only; omega, hdW.1, fun i _ => rfl, rfl, ?_⟩
    dsimp only
    rw [List.length_take]
    exact Nat.min_eq_left h
  · have hres : c.setLengthFrom newLength donor =
        (⟨c.poolBlockSize,
          c.blocks ++
            donor.blocks.drop (donor.blocks.length -
              min (ceilDiv newLength c.bufferSize - c.blocks.length)
                (donor.blocks.length -
                  ceilDiv donor.d_length donor.bufferSize)) ++
            List.replicate ((ceilDiv newLength c.bufferSize -
                c.blocks.length) -
              min (ceilDiv newLength c.bufferSize - c.blocks.length)
                (donor.blocks.length -
                  ceilDiv donor.d_length donor.bufferSize))
              (List.replicate c.bufferSize 0),
          newLength⟩,
         ⟨donor.poolBlockSize,
          donor.blocks.take (donor.blocks.length -
            min (ceilDiv newLength c.bufferSize - c.blocks.length)
              (donor.blocks.length -
                ceilDiv donor.d_length donor.bufferSize)),
          donor.d_length⟩) := by
      simp only [PooledBufferChain.setLengthFrom]
      rw [if_neg h]
    have hmoved : c.movedCount newLength donor =
        min (ceilDiv newLength c.bufferSize - c.blocks.length)
          (donor.blocks.length - ceilDiv donor.d_length donor.bufferSize) := by
      simp only [PooledBufferChain.movedCount]
      rw [if_neg h]
    have hneed := Nat.min_le_left
      (ceilDiv newLength c.bufferSize - c.blocks.length)
      (donor.blocks.length - ceilDiv donor.d_length donor.bufferSize)
    have hexc := Nat.min_le_right
      (ceilDiv newLength c.bufferSize - c.blocks.length)
      (donor.blocks.length - ceilDiv donor.d_length donor.bufferSize)
    have hdW1 := hdW.1
    rw [hres, hmoved]
    refine ⟨rfl, ?_, ?_, ?_, rfl, ?_⟩
    · dsimp only
      exact take_sub_length donor.blocks _
    · dsimp only
      rw [take_sub_length donor.blocks _]
      omega
    · intro i hi
      have hbsd0 : 0 < donor.bufferSize := by rw [hbsd]; exact hbs
      have hQ := div_lt_ceilDiv hbsd0 hi
      show (((donor.blocks.take (donor.blocks.length -
          min (ceilDiv newLength c.bufferSize - c.blocks.length)
            (donor.blocks.length -
              ceilDiv donor.d_length donor.bufferSize)))[i /
          donor.bufferSize]?).getD [])[i % donor.bufferSize]?.getD 0 =
        ((donor.blocks[i / donor.bufferSize]?).getD
          [])[i % donor.bufferSize]?.getD 0
      rw [List.getElem?_take, if_pos (by omega)]
    · dsimp only
      simp only [List.length_append, List.length_drop, List.length_replicate]
      omega

/-- Donor chain used by the C4 witness: buffer size 8, length 10, three
blocks — one whole excess tail block beyond the two its length needs. -/
def chainD : PooledBufferChain :=
  ⟨16, [[1, 2, 3, 4, 5, 6, 7, 8], [9, 10, 11, 12, 13, 14, 15, 16],
    [0, 0, 0, 0, 0, 0, 0, 0]], 10⟩

/-- Witness for C4: the three-block donor (one excess block beyond its
10-byte length) donates one whole tail block to an empty chain growing
to 20 bytes. -/
theorem setLengthFrom_donor_spec_witness :
    chainD.poolBlockSize = (mkChain 16).poolBlockSize ∧ WeakInv chainD ∧
    0 < (mkChain 16).bufferSize ∧
    (((mkChain 16).setLengthFrom 20 chainD).2.length = chainD.length ∧
      ((mkChain 16).setLengthFrom 20 chainD).2.numBuffers =
        chainD.numBuffers - (mkChain 16).movedCount 20 chainD ∧
      ceilDiv chainD.length chainD.bufferSize ≤
        ((mkChain 16).setLengthFrom 20 chainD).2.numBuffers ∧
      (∀ i < chainD.length,
        ((mkChain 16).setLengthFrom 20 chainD).2.getByte i =
          chainD.getByte i) ∧
      ((mkChain 16).setLengthFrom 20 chainD).1.length = 20 ∧
      ((mkChain 16).setLengthFrom 20 chainD).1.numBuffers =
        ceilDiv 20 (mkChain 16).bufferSize) :=
  ⟨by decide, by decide, by decide,
   setLengthFrom_donor_spec (mkChain 16) chainD 20
     (by decide) (by decide) (by decide)⟩

/-- Witness for C9 on the two-block chain, capacity 2, start index 1. -/
theorem loadBuffers_spec_witness :
    0 < chainW.numBuffers ∧ 1 < chainW.numBuffers ∧ 2 ≤ ([[], [], []] : List (List Nat)).length ∧
    ((chainW.loadBuffers [[], [], []] 2 1).2 = min 2 (chainW.numBuffers - 1) ∧
      (∀ i < (chainW.loadBuffers [[], [], []] 2 1).2,
        ((chainW.loadBuffers [[], [], []] 2 1).1)[i]? = some (chainW.buffer (1 + i))) ∧
      (∀ i, (chainW.loadBuffers [[], [], []] 2 1).2 ≤ i →
        ((chainW.loadBuffers [[], [], []] 2 1).1)[i]? =
          ([[], [], []] : List (List Nat))[i]?)) :=
  ⟨by decide, by decide, by decide,
   loadBuffers_spec chainW [[], [], []] 2 1 (by decide) (by decide) (by decide)⟩

end Bdlmca
